import Mathlib

/-!
Verification development for the Nauthiz threat-intelligence service.

The definitions below are a shallow embedding of the Python source:
* `src/app/core/scoring.py` — the scoring/classification engine,
* `src/app/api/ioc.py` (`_enrich_ioc_parallel`) — the enrichment orchestrator,
* `src/app/core/db.py` — the assessment store (SQLite with CHECK constraints).

Python dictionaries are modelled as association lists of `PyVal` values so
that Python truthiness (`if vt_data:`, `if detections:`) and `dict.get` are
captured faithfully, including the fact that an empty dict is falsy.
-/

/-- A Python value as far as the scoring code inspects one: integers,
strings, lists and `None`.  These are exactly the JSON-decoded shapes the
provider adapters in `src/app/core/providers.py` produce (detection counts,
resolution lists, registrar strings). -/
inductive PyVal where
  | vint : Int → PyVal
  | vstr : String → PyVal
  | vlist : List PyVal → PyVal
  | vnone : PyVal

/-- A Python dict, modelled as an association list (keys are unique in a
real dict; lookup takes the first match). -/
def PyDict := List (String × PyVal)

/-- Python truthiness of a `PyVal`: `0`, `""`, `[]` and `None` are falsy. -/
def pyTruthy : PyVal → Bool
  | .vint i => i != 0
  | .vstr s => s != ""
  | .vlist l => !l.isEmpty
  | .vnone => false

/-- `d.get(k, default)` on a Python dict. -/
def pyGet (d : PyDict) (k : String) (default : PyVal) : PyVal :=
  match d.find? (fun p => p.1 == k) with
  | some p => p.2
  | none => default

/-- Truthiness of an optional dict argument (`if vt_data:` in the source,
where the parameter defaults to `None`): `None` is falsy and an empty dict
is falsy. -/
def pyTruthyOpt : Option PyDict → Bool
  | none => false
  | some d => !d.isEmpty

/-- `.get` lifted to the optional dict argument (only ever reached after a
truthiness check in the source, so the `none` case is unreachable there). -/
def optGet (o : Option PyDict) (k : String) (default : PyVal) : PyVal :=
  match o with
  | some d => pyGet d k default
  | none => default

/-- The risk-tier if-chain at the end of `score_ioc`
(`src/app/core/scoring.py` lines 33–41). -/
def riskLevelOf (score : Int) : String :=
  if score ≥ 70 then "critical"
  else if score ≥ 50 then "high"
  else if score ≥ 25 then "medium"
  else "low"

/-- The VirusTotal block of `score_ioc` (lines 12–16 of
`src/app/core/scoring.py`): when `vt_data` is truthy the source name is
recorded and, when `detections` is truthy, `min(detections * 5, 50)` is
added.  A truthy non-integer `detections` would make Python's
`min(detections * 5, 50)` raise `TypeError`, modelled as `Except.error`. -/
def vtStep (vt_data : Option PyDict) : Except String (Int × List String) :=
  if pyTruthyOpt vt_data then
    let detections := optGet vt_data "detections" (.vint 0)
    if pyTruthy detections then
      match detections with
      | .vint n => .ok (0 + min (n * 5) 50, ["virustotal"])
      | _ => .error "TypeError"
    else .ok (0, ["virustotal"])
  else .ok (0, [])

/-- `score_ioc` from `src/app/core/scoring.py`: accumulate the VirusTotal,
SecurityTrails and WHOIS contributions, clamp to `[0, 100]`, then map the
score through the risk-tier if-chain.  Returns
`(score, risk_level, sources)`. -/
def score_ioc (vt_data st_data whois_data : Option PyDict) :
    Except String (Int × String × List String) :=
  match vtStep vt_data with
  | .error e => .error e
  | .ok (score1, sources1) =>
    -- SecurityTrails scoring: `if st_data:` appends the source,
    -- `if st_data.get("resolutions"):` adds 10
    let score2 : Int :=
      if pyTruthyOpt st_data && pyTruthy (optGet st_data "resolutions" .vnone)
      then score1 + 10 else score1
    let sources2 :=
      if pyTruthyOpt st_data then sources1 ++ ["securitytrails"] else sources1
    -- WHOIS scoring: `if whois_data:` appends the source,
    -- `if whois_data.get("registrar"):` adds 5
    let score3 : Int :=
      if pyTruthyOpt whois_data && pyTruthy (optGet whois_data "registrar" .vnone)
      then score2 + 5 else score2
    let sources3 :=
      if pyTruthyOpt whois_data then sources2 ++ ["whois"] else sources2
    -- Normalize score to 0-100
    let score4 : Int := min (max score3 0) 100
    .ok (score4, riskLevelOf score4, sources3)

/-! Specification combinators for the individual weights, used to state the
additive-decomposition lemma. -/

/-- The points the VirusTotal block contributes (or the `TypeError` it
raises). -/
def vtPoints (vt_data : Option PyDict) : Except String Int :=
  if pyTruthyOpt vt_data then
    let detections := optGet vt_data "detections" (.vint 0)
    if pyTruthy detections then
      match detections with
      | .vint n => .ok (min (n * 5) 50)
      | _ => .error "TypeError"
    else .ok 0
  else .ok 0

/-- The points the SecurityTrails block contributes. -/
def stPoints (st_data : Option PyDict) : Int :=
  if pyTruthyOpt st_data && pyTruthy (optGet st_data "resolutions" .vnone)
  then 10 else 0

/-- The points the WHOIS block contributes. -/
def whoisPoints (whois_data : Option PyDict) : Int :=
  if pyTruthyOpt whois_data && pyTruthy (optGet whois_data "registrar" .vnone)
  then 5 else 0

/-- The source-name contribution of the VirusTotal block. -/
def vtSource (vt_data : Option PyDict) : List String :=
  if pyTruthyOpt vt_data then ["virustotal"] else []

/-- The source-name contribution of the SecurityTrails block. -/
def stSource (st_data : Option PyDict) : List String :=
  if pyTruthyOpt st_data then ["securitytrails"] else []

/-- The source-name contribution of the WHOIS block. -/
def whoisSource (whois_data : Option PyDict) : List String :=
  if pyTruthyOpt whois_data then ["whois"] else []

/-- The clamp `min(max(score, 0), 100)` at line 30 of the source. -/
def clampScore (s : Int) : Int := min (max s 0) 100

lemma vtStep_eq (vt : Option PyDict) :
    vtStep vt = match vtPoints vt with
      | .ok v => .ok (v, vtSource vt)
      | .error e => .error e := by
  unfold vtStep vtPoints vtSource
  by_cases h : pyTruthyOpt vt = true
  · simp only [h, if_pos]
    by_cases h2 : pyTruthy (optGet vt "detections" (.vint 0)) = true
    · simp only [h2, if_pos]
      cases optGet vt "detections" (.vint 0) <;> simp
    · simp [h2]
  · simp [h]

/-- Additive decomposition of `score_ioc`: when the VirusTotal block does
not raise, the result is the clamped sum of the three weights together with
the concatenated source names, classified by the risk-tier chain. -/
lemma score_ioc_ok (vt st wh : Option PyDict) (v : Int)
    (hv : vtPoints vt = .ok v) :
    score_ioc vt st wh =
      .ok (clampScore (v + stPoints st + whoisPoints wh),
           riskLevelOf (clampScore (v + stPoints st + whoisPoints wh)),
           vtSource vt ++ stSource st ++ whoisSource wh) := by
  unfold score_ioc
  rw [vtStep_eq, hv]
  simp only [stPoints, whoisPoints, stSource, whoisSource, clampScore]
  by_cases h1 : pyTruthyOpt st = true <;>
    by_cases h2 : pyTruthy (optGet st "resolutions" .vnone) = true <;>
      by_cases h3 : pyTruthyOpt wh = true <;>
        by_cases h4 : pyTruthy (optGet wh "registrar" .vnone) = true <;>
          simp [h1, h2, h3, h4, add_comm, add_left_comm, add_assoc]

/-- When the VirusTotal block raises, `score_ioc` propagates the error. -/
lemma score_ioc_err (vt st wh : Option PyDict) (e : String)
    (hv : vtPoints vt = .error e) :
    score_ioc vt st wh = .error e := by
  unfold score_ioc
  rw [vtStep_eq, hv]

/-- A successful `score_ioc` run determines a successful VirusTotal block. -/
lemma vtPoints_ok_of_score_ioc_ok (vt st wh : Option PyDict)
    (r : Int × String × List String) (h : score_ioc vt st wh = .ok r) :
    ∃ v, vtPoints vt = .ok v := by
  cases hv : vtPoints vt with
  | ok v => exact ⟨v, rfl⟩
  | error e => rw [score_ioc_err vt st wh e hv] at h; cases h

/-- The VirusTotal weight is capped at 50. -/
lemma vtPoints_le (vt : Option PyDict) (v : Int) (hv : vtPoints vt = .ok v) :
    v ≤ 50 := by
  unfold vtPoints at hv
  by_cases h : pyTruthyOpt vt = true
  · simp only [h, if_pos] at hv
    by_cases h2 : pyTruthy (optGet vt "detections" (.vint 0)) = true
    · simp only [h2, if_pos] at hv
      cases hd : optGet vt "detections" (.vint 0) <;> rw [hd] at hv <;>
        simp_all <;> omega
    · simp [h2] at hv; omega
  · simp [h] at hv; omega

lemma stPoints_le (st : Option PyDict) : stPoints st ≤ 10 := by
  unfold stPoints; split <;> omega

lemma whoisPoints_le (wh : Option PyDict) : whoisPoints wh ≤ 5 := by
  unfold whoisPoints; split <;> omega

lemma clampScore_range (s : Int) : 0 ≤ clampScore s ∧ clampScore s ≤ 100 := by
  unfold clampScore
  constructor
  · exact le_min (le_max_right s 0) (by norm_num)
  · exact min_le_right _ _

lemma clampScore_le_of_le (s b : Int) (hb : 0 ≤ b) (h : s ≤ b) :
    clampScore s ≤ b := by
  unfold clampScore
  exact le_trans (min_le_left _ _) (max_le h hb)

/-- The tier boundaries of `riskLevelOf`, as inclusive-lower-bound ranges. -/
lemma riskLevelOf_tiers (s : Int) :
    (riskLevelOf s = "critical" ↔ 70 ≤ s) ∧
    (riskLevelOf s = "high" ↔ 50 ≤ s ∧ s < 70) ∧
    (riskLevelOf s = "medium" ↔ 25 ≤ s ∧ s < 50) ∧
    (riskLevelOf s = "low" ↔ s < 25) := by
  unfold riskLevelOf
  split_ifs with h1 h2 h3 <;> refine ⟨?_, ?_, ?_, ?_⟩ <;>
    constructor <;> intro hx <;> simp_all <;> omega

lemma riskLevelOf_mem (s : Int) :
    riskLevelOf s = "low" ∨ riskLevelOf s = "medium" ∨
    riskLevelOf s = "high" ∨ riskLevelOf s = "critical" := by
  unfold riskLevelOf
  split_ifs <;> simp

/-!
Enrichment orchestrator: `_enrich_ioc_parallel` in `src/app/api/ioc.py`.
The three provider coroutines (`vt_lookup`, `securitytrails_lookup_domain`,
`hunter_lookup_domain`) each return a dict or `None`, or raise;
`asyncio.gather(..., return_exceptions=True)` therefore yields, per task,
a dict, `None`, or an exception object, and the orchestrator keeps a result
only when `isinstance(result, dict)`.  The nondeterministic outcome of the
batch (which the event loop decides) is an explicit parameter here.
-/

/-- What a single provider task produced once `asyncio.gather` returned:
a dict, a non-dict return value (the adapters return `None` on missing
credentials, non-2xx responses and caught transport errors), or a raised
exception collected by `return_exceptions=True`. -/
inductive TaskOutcome where
  | retDict : PyDict → TaskOutcome
  | retNone : TaskOutcome
  | raised : TaskOutcome

/-- The state of a task at the moment the shared deadline fires: it may
already have finished with some outcome, or still be in flight. -/
inductive TaskStatus where
  | finished : TaskOutcome → TaskStatus
  | inFlight : TaskStatus

/-- The outcome of the whole batch: either `asyncio.wait_for` returned the
gathered results before the deadline, or it raised `asyncio.TimeoutError`
(in which case the per-task states at that moment are recorded only to show
they are discarded). -/
inductive BatchOutcome where
  | completed : TaskOutcome → TaskOutcome → TaskOutcome → BatchOutcome
  | deadlineElapsed : TaskStatus → TaskStatus → TaskStatus → BatchOutcome

/-- `results[i] if isinstance(results[i], dict) else None`. -/
def taskResult : TaskOutcome → Option PyDict
  | .retDict d => some d
  | .retNone => none
  | .raised => none

/-- `_enrich_ioc_parallel` from `src/app/api/ioc.py`: types other than
`domain`/`ip` short-circuit with no tasks created; otherwise three tasks are
created and either the gathered per-task results are filtered through
`isinstance(·, dict)`, or the batch timeout discards everything.  The `Nat`
component counts the provider tasks created (0 on the short-circuit path),
matching the spec's call-count observable. -/
def enrich_ioc_parallel (ioc_type : String) (outcome : BatchOutcome) :
    (Option PyDict × Option PyDict × Option PyDict) × Nat :=
  if ioc_type ∉ (["domain", "ip"] : List String) then
    ((none, none, none), 0)
  else
    match outcome with
    | .completed r0 r1 r2 => ((taskResult r0, taskResult r1, taskResult r2), 3)
    | .deadlineElapsed _ _ _ => ((none, none, none), 3)

/-!
Serialization of the `sources` column.  `save_query` stores
`json.dumps(sources)` and the read paths apply `json.loads`.  The encoder
below produces exactly `json.dumps`'s output for lists of
printable-ASCII strings (`'["a", "b"]'`, separator `", "`, with `"` and
`\` escaped); for other characters Python escapes differ, but
`loads(dumps(x)) = x` holds there too, so the round-trip theorem proved
here mirrors the library behaviour the code relies on.
-/

/-- JSON escaping of one character inside a string literal. -/
def jsonEscapeChar (c : Char) : List Char :=
  if c = '"' then ['\\', '"']
  else if c = '\\' then ['\\', '\\']
  else [c]

/-- JSON encoding of one string, with surrounding quotes. -/
def jsonEncodeString (s : String) : String :=
  ⟨'"' :: (s.data.map jsonEscapeChar).flatten ++ ['"']⟩

/-- The characters of a JSON array of strings after the opening bracket:
comma-space-separated encoded strings followed by the closing bracket. -/
def jsonListBody (l : List String) : List Char :=
  List.intercalate [',', ' '] (l.map fun t => (jsonEncodeString t).data) ++ [']']

/-- `json.dumps` on a list of strings. -/
def jsonEncodeStrList (l : List String) : String :=
  ⟨'[' :: jsonListBody l⟩

/-- Parse the body of a JSON string literal (the opening quote already
consumed), undoing the escapes and stopping at the closing quote. -/
def parseJsonStringBody (acc : List Char) : List Char → Option (String × List Char)
  | [] => none
  | '"' :: rest => some (⟨acc.reverse⟩, rest)
  | ['\\'] => none
  | '\\' :: e :: rest2 =>
    if e = '"' ∨ e = '\\' then parseJsonStringBody (e :: acc) rest2
    else none
  | c :: rest => parseJsonStringBody (c :: acc) rest

/-- Parse one or more `", "`-separated JSON strings followed by `]`,
consuming the whole input.  `fuel` bounds the number of separators. -/
def parseStrListItems (fuel : Nat) (cs : List Char) : Option (List String) :=
  match cs with
  | '"' :: rest =>
    (parseJsonStringBody [] rest).elim none (fun sr =>
      if sr.2 = [']'] then some [sr.1]
      else if sr.2.take 2 = [',', ' '] then
        match fuel with
        | 0 => none
        | fuel' + 1 =>
          (parseStrListItems fuel' (sr.2.drop 2)).map (fun ss => sr.1 :: ss)
      else none)
  | _ => none

/-- `json.loads` on the serialized form of a list of strings (`none` models
the `ValueError` raised on malformed input). -/
def jsonDecodeStrList (s : String) : Option (List String) :=
  match s.data with
  | '[' :: rest =>
    if rest = [']'] then some []
    else parseStrListItems rest.length rest
  | _ => none

lemma jsonEscapeChar_quote : jsonEscapeChar '"' = ['\\', '"'] := rfl

lemma jsonEscapeChar_backslash : jsonEscapeChar '\\' = ['\\', '\\'] := rfl

lemma jsonEscapeChar_other (c : Char) (h1 : c ≠ '"') (h2 : c ≠ '\\') :
    jsonEscapeChar c = [c] := by
  unfold jsonEscapeChar
  rw [if_neg h1, if_neg h2]

lemma parseJsonStringBody_closequote (acc rest : List Char) :
    parseJsonStringBody acc ('"' :: rest) = some (⟨acc.reverse⟩, rest) := rfl

lemma parseJsonStringBody_escape (acc : List Char) (e : Char) (rest2 : List Char)
    (he : e = '"' ∨ e = '\\') :
    parseJsonStringBody acc ('\\' :: e :: rest2) =
      parseJsonStringBody (e :: acc) rest2 := by
  show (if e = '"' ∨ e = '\\' then parseJsonStringBody (e :: acc) rest2
        else none) = parseJsonStringBody (e :: acc) rest2
  rw [if_pos he]

lemma parseJsonStringBody_plain (acc : List Char) (c : Char) (rest : List Char)
    (h1 : c ≠ '"') (h2 : c ≠ '\\') :
    parseJsonStringBody acc (c :: rest) = parseJsonStringBody (c :: acc) rest := by
  exact parseJsonStringBody.eq_5 acc c rest (fun hc => h1 hc) (fun hc _ => h2 hc)
    (fun e l hc _ => h2 hc)

lemma parseJsonStringBody_encode (cs : List Char) :
    ∀ (acc rest : List Char),
      parseJsonStringBody acc ((cs.map jsonEscapeChar).flatten ++ '"' :: rest) =
        some (⟨acc.reverse ++ cs⟩, rest) := by
  induction cs with
  | nil =>
    intro acc rest
    simp only [List.map_nil, List.flatten_nil, List.nil_append]
    rw [parseJsonStringBody_closequote]
    simp
  | cons c cs ih =>
    intro acc rest
    by_cases h1 : c = '"'
    · subst h1
      simp only [List.map_cons, List.flatten_cons, jsonEscapeChar_quote,
        List.cons_append, List.nil_append, List.append_assoc]
      rw [parseJsonStringBody_escape _ _ _ (Or.inl rfl), ih]
      simp
    · by_cases h2 : c = '\\'
      · subst h2
        simp only [List.map_cons, List.flatten_cons, jsonEscapeChar_backslash,
          List.cons_append, List.nil_append, List.append_assoc]
        rw [parseJsonStringBody_escape _ _ _ (Or.inr rfl), ih]
        simp
      · simp only [List.map_cons, List.flatten_cons, jsonEscapeChar_other c h1 h2,
          List.cons_append, List.nil_append, List.singleton_append]
        rw [parseJsonStringBody_plain _ _ _ h1 h2, ih]
        simp

lemma jsonEncodeString_data (s : String) :
    (jsonEncodeString s).data = '"' :: (s.data.map jsonEscapeChar).flatten ++ ['"'] := rfl

lemma intercalate_cons_cons' {α : Type} (sep a b : List α) (xs : List (List α)) :
    List.intercalate sep (a :: b :: xs) = a ++ sep ++ List.intercalate sep (b :: xs) := by
  simp [List.intercalate, List.intersperse_cons_cons, List.append_assoc]

lemma jsonListBody_singleton (s : String) :
    jsonListBody [s] = (jsonEncodeString s).data ++ [']'] := by
  simp [jsonListBody, List.intercalate, List.intersperse_singleton]

lemma jsonListBody_cons_cons (s t : String) (ls : List String) :
    jsonListBody (s :: t :: ls) =
      (jsonEncodeString s).data ++ ',' :: ' ' :: jsonListBody (t :: ls) := by
  simp only [jsonListBody, List.map_cons, intercalate_cons_cons', List.append_assoc,
    List.cons_append, List.nil_append]

lemma jsonListBody_length (l : List String) :
    ∀ s : String, l.length ≤ (jsonListBody (s :: l)).length := by
  induction l with
  | nil => intro s; simp
  | cons t ls ih =>
    intro s
    rw [jsonListBody_cons_cons]
    have h := ih t
    simp only [List.length_append, List.length_cons]
    omega

lemma parseStrListItems_quote (fuel : Nat) (rest : List Char) :
    parseStrListItems fuel ('"' :: rest) =
      (parseJsonStringBody [] rest).elim none (fun sr =>
        if sr.2 = [']'] then some [sr.1]
        else if sr.2.take 2 = [',', ' '] then
          match fuel with
          | 0 => none
          | fuel' + 1 =>
            (parseStrListItems fuel' (sr.2.drop 2)).map (fun ss => sr.1 :: ss)
        else none) := by
  cases fuel <;> rfl

lemma char_cons_ne {a b : Char} (l1 l2 : List Char) (h : a ≠ b) :
    a :: l1 ≠ b :: l2 := by
  intro hc
  injection hc with h1 _
  exact h h1

lemma parseStrListItems_encode (l : List String) :
    ∀ (s : String) (fuel : Nat), l.length ≤ fuel →
      parseStrListItems fuel (jsonListBody (s :: l)) = some (s :: l) := by
  induction l with
  | nil =>
    intro s fuel _
    rw [jsonListBody_singleton, jsonEncodeString_data]
    simp only [List.cons_append, List.append_assoc, List.singleton_append]
    rw [parseStrListItems_quote, parseJsonStringBody_encode]
    rfl
  | cons t ls ih =>
    intro s fuel hfuel
    rw [jsonListBody_cons_cons, jsonEncodeString_data]
    simp only [List.cons_append, List.append_assoc, List.singleton_append]
    cases fuel with
    | zero => simp at hfuel
    | succ fuel' =>
      have hrec := ih t fuel' (by simpa using hfuel)
      rw [parseStrListItems_quote, parseJsonStringBody_encode]
      simp only [Option.elim, List.nil_append, List.reverse_nil]
      rw [if_neg (char_cons_ne _ _ (by decide)), if_pos (by simp [List.take])]
      show (parseStrListItems fuel' (jsonListBody (t :: ls))).map
          (fun ss => s :: ss) = some (s :: t :: ls)
      rw [hrec]
      rfl

lemma jsonListBody_starts_quote (s : String) (ls : List String) :
    ∃ t, jsonListBody (s :: ls) = '"' :: t := by
  cases ls with
  | nil =>
    exact ⟨(s.data.map jsonEscapeChar).flatten ++ ['"'] ++ [']'], by
      rw [jsonListBody_singleton, jsonEncodeString_data]
      simp [List.append_assoc]⟩
  | cons t ls =>
    exact ⟨(s.data.map jsonEscapeChar).flatten ++ ['"'] ++
        ',' :: ' ' :: jsonListBody (t :: ls), by
      rw [jsonListBody_cons_cons, jsonEncodeString_data]
      simp [List.append_assoc]⟩

/-- `json.loads(json.dumps(l)) = l` for lists of strings: the round-trip the
`sources` column relies on. -/
lemma jsonDecodeStrList_encode (l : List String) :
    jsonDecodeStrList (jsonEncodeStrList l) = some l := by
  cases l with
  | nil => rfl
  | cons s ls =>
    show jsonDecodeStrList ⟨'[' :: jsonListBody (s :: ls)⟩ = some (s :: ls)
    obtain ⟨t, ht⟩ := jsonListBody_starts_quote s ls
    rw [jsonDecodeStrList.eq_def]
    show (if jsonListBody (s :: ls) = [']'] then some []
          else parseStrListItems (jsonListBody (s :: ls)).length
            (jsonListBody (s :: ls))) = some (s :: ls)
    rw [if_neg (by rw [ht]; exact char_cons_ne _ _ (by decide))]
    exact parseStrListItems_encode ls s _ (jsonListBody_length ls s)

/-!
Assessment store: `src/app/core/db.py`.  The `ioc_queries` table is
modelled as a list of rows in insertion order.  `created_at` defaults to
`CURRENT_TIMESTAMP`; since all timestamps share one fixed text format,
their lexicographic `TEXT` comparison in `ORDER BY created_at DESC`
coincides with chronological order, which is modelled with a `Nat` clock.
SQLite leaves the relative order of equal-`created_at` rows unspecified;
the theorems below only use order properties that hold for any compliant
ordering, realised here by insertion sort on the `created_at` key.
-/

/-- A row of the `ioc_queries` table as created by `init_db`/`save_query`.
The `sources` column holds the `json.dumps` text; the raw per-provider
payload columns hold dict values (their own dumps/loads round-trip, which
no query result depends on beyond being returned, is modelled as the
identity). -/
structure DBRow where
  ioc : String
  ioc_type : String
  score : Int
  risk_level : String
  sources : String
  vt : PyDict
  st : PyDict
  whois : PyDict
  created_at : Nat
  first_seen_global : Nat
  last_updated : Nat
  burned_infra : Int
  activity_phase : String

/-- The allowed values of the `risk_level` CHECK constraint in `init_db`. -/
def allowedRiskLevels : List String := ["low", "medium", "high", "critical"]

/-- The row `save_query` inserts: `sources` serialized with `json.dumps`,
`vt or {}` / `st or {}` / `whois or {}` for absent payloads, both
timestamp columns set to the current time, `created_at` defaulting to the
current timestamp, and `burned_infra`/`activity_phase` to their column
defaults `0`/`'unknown'`. -/
def savedRow (ioc ioc_type : String) (score : Int) (risk_level : String)
    (sources : List String) (vt st whois : Option PyDict) (now : Nat) : DBRow :=
  { ioc := ioc, ioc_type := ioc_type, score := score, risk_level := risk_level,
    sources := jsonEncodeStrList sources,
    vt := vt.getD [], st := st.getD [], whois := whois.getD [],
    created_at := now, first_seen_global := now, last_updated := now,
    burned_infra := 0, activity_phase := "unknown" }

/-- `save_query` from `src/app/core/db.py`: the INSERT either appends one
row or is rejected by the CHECK constraints `score >= 0 AND score <= 100`
and `risk_level IN ('low','medium','high','critical')` declared in
`init_db` (SQLite raises `IntegrityError`, modelled as `Except.error`). -/
def save_query (db : List DBRow) (ioc ioc_type : String) (score : Int)
    (risk_level : String) (sources : List String) (vt st whois : Option PyDict)
    (now : Nat) : Except String (List DBRow) :=
  if 0 ≤ score ∧ score ≤ 100 ∧ risk_level ∈ allowedRiskLevels then
    .ok (db ++ [savedRow ioc ioc_type score risk_level sources vt st whois now])
  else
    .error "CHECK constraint failed"

/-- Insert into a list kept in descending key order. -/
def insertDesc {α : Type} (key : α → Nat) (x : α) : List α → List α
  | [] => [x]
  | y :: ys => if key y ≤ key x then x :: y :: ys else y :: insertDesc key x ys

/-- Insertion sort by descending key: the model of `ORDER BY created_at
DESC`. -/
def sortDesc {α : Type} (key : α → Nat) : List α → List α
  | [] => []
  | x :: xs => insertDesc key x (sortDesc key xs)

/-- `WHERE ioc = ?`. -/
def rowsFor (db : List DBRow) (ioc : String) : List DBRow :=
  db.filter (fun r => r.ioc == ioc)

/-- The rows `SELECT ... WHERE ioc = ? ORDER BY created_at DESC` visits. -/
def selectDesc (db : List DBRow) (ioc : String) : List DBRow :=
  sortDesc (fun r => r.created_at) (rowsFor db ioc)

/-- The dict `get_ioc_summary` builds from the newest row. -/
structure IOCSummaryData where
  ioc : String
  ioc_type : String
  score : Int
  risk_level : String
  sources : List String
  vt : PyDict
  st : PyDict
  whois : PyDict
  created_at : Nat

/-- `get_ioc_summary` from `src/app/core/db.py`: newest row for the IOC
(`ORDER BY created_at DESC LIMIT 1`), `None` when there is no row, with
`sources` put through `json.loads` (whose failure on a malformed column
would raise, modelled as `Except.error`). -/
def get_ioc_summary (db : List DBRow) (ioc : String) :
    Except String (Option IOCSummaryData) :=
  (selectDesc db ioc).head?.elim (.ok none) (fun row =>
    (jsonDecodeStrList row.sources).elim (.error "json.loads failed")
      (fun srcs =>
        .ok (some { ioc := row.ioc, ioc_type := row.ioc_type,
                    score := row.score, risk_level := row.risk_level,
                    sources := srcs, vt := row.vt, st := row.st,
                    whois := row.whois, created_at := row.created_at })))

/-- One entry of the `get_ioc_history` result list. -/
structure HistoryEntry where
  ioc : String
  ioc_type : String
  score : Int
  risk_level : String
  sources : List String
  created_at : Nat

/-- The list comprehension at the end of `get_ioc_history`, decoding each
row's `sources` column. -/
def historyRows : List DBRow → Except String (List HistoryEntry)
  | [] => .ok []
  | row :: rest =>
    match jsonDecodeStrList row.sources with
    | some srcs =>
      match historyRows rest with
      | .ok es => .ok ({ ioc := row.ioc, ioc_type := row.ioc_type,
                         score := row.score, risk_level := row.risk_level,
                         sources := srcs, created_at := row.created_at } :: es)
      | .error e => .error e
    | none => .error "json.loads failed"

/-- `get_ioc_history` from `src/app/core/db.py`:
`WHERE ioc = ? ORDER BY created_at DESC LIMIT 50`, each row projected to
`(ioc, ioc_type, score, risk_level, sources, created_at)`. -/
def get_ioc_history (db : List DBRow) (ioc : String) :
    Except String (List HistoryEntry) :=
  historyRows ((selectDesc db ioc).take 50)

/-- One entry of the `get_ioc_timeline` result list. -/
structure TimelinePoint where
  timestamp : Nat
  score : Int
  risk_level : String
  phase : String
  burned : Bool
deriving DecidableEq

/-- `get_ioc_timeline` from `src/app/core/db.py`:
`WHERE ioc = ? ORDER BY created_at DESC LIMIT 100`, each row projected to
`(created_at, score, risk_level, activity_phase, bool(burned_infra))`. -/
def get_ioc_timeline (db : List DBRow) (ioc : String) : List TimelinePoint :=
  ((selectDesc db ioc).take 100).map (fun row =>
    { timestamp := row.created_at, score := row.score,
      risk_level := row.risk_level, phase := row.activity_phase,
      burned := row.burned_infra != (0 : Int) })

/-- Descending sortedness by a key: what `ORDER BY <key> DESC` guarantees. -/
def DescSorted {α : Type} (key : α → Nat) (l : List α) : Prop :=
  List.Chain' (fun a b => key b ≤ key a) l

lemma mem_insertDesc {α : Type} (key : α → Nat) (x a : α) (l : List α) :
    a ∈ insertDesc key x l ↔ a = x ∨ a ∈ l := by
  induction l with
  | nil => simp [insertDesc]
  | cons y ys ih =>
    unfold insertDesc
    split
    · simp
    · simp [ih]
      tauto

lemma mem_sortDesc {α : Type} (key : α → Nat) (a : α) (l : List α) :
    a ∈ sortDesc key l ↔ a ∈ l := by
  induction l with
  | nil => simp [sortDesc]
  | cons y ys ih => simp [sortDesc, mem_insertDesc, ih]

lemma length_insertDesc {α : Type} (key : α → Nat) (x : α) (l : List α) :
    (insertDesc key x l).length = l.length + 1 := by
  induction l with
  | nil => rfl
  | cons y ys ih =>
    unfold insertDesc
    split
    · simp
    · simp [ih]

lemma length_sortDesc {α : Type} (key : α → Nat) (l : List α) :
    (sortDesc key l).length = l.length := by
  induction l with
  | nil => rfl
  | cons y ys ih => simp [sortDesc, length_insertDesc, ih]

lemma insertDesc_sorted {α : Type} (key : α → Nat) (x : α) (l : List α)
    (hl : DescSorted key l) : DescSorted key (insertDesc key x l) := by
  induction l with
  | nil => simp [insertDesc, DescSorted]
  | cons y ys ih =>
    unfold insertDesc
    split
    · rename_i hle
      exact List.Chain'.cons hle hl
    · rename_i hgt
      have hys : DescSorted key ys := (List.chain'_cons'.1 hl).2
      have hins := ih hys
      refine List.chain'_cons'.2 ⟨?_, hins⟩
      intro z hz
      cases l' : insertDesc key x ys with
      | nil => rw [l'] at hz; cases hz
      | cons w ws =>
        rw [l'] at hz
        simp at hz
        subst hz
        have hw : w = x ∨ w ∈ ys := by
          have : w ∈ insertDesc key x ys := by rw [l']; simp
          exact (mem_insertDesc key x w ys).1 this
        cases hw with
        | inl hwx => subst hwx; omega
        | inr hwys =>
          cases ys with
          | nil => cases hwys
          | cons u us =>
            have hhead : key u ≤ key y := (List.chain'_cons'.1 hl).1 u rfl
            unfold insertDesc at l'
            by_cases hc : key u ≤ key x
            · rw [if_pos hc] at l'
              injection l' with hw' _
              subst hw'; omega
            · rw [if_neg hc] at l'
              injection l' with hw' _
              subst hw'; omega

lemma sortDesc_sorted {α : Type} (key : α → Nat) (l : List α) :
    DescSorted key (sortDesc key l) := by
  induction l with
  | nil => simp [sortDesc, DescSorted]
  | cons y ys ih => exact insertDesc_sorted key y (sortDesc key ys) ih

/-- Appending a strictly newer element sorts to the front. -/
lemma sortDesc_append_newest {α : Type} (key : α → Nat) (x : α) (l : List α)
    (h : ∀ y ∈ l, key y < key x) :
    sortDesc key (l ++ [x]) = x :: sortDesc key l := by
  induction l with
  | nil => rfl
  | cons y ys ih =>
    have hy : key y < key x := h y (by simp)
    have hrest : ∀ z ∈ ys, key z < key x := fun z hz => h z (by simp [hz])
    show insertDesc key y (sortDesc key (ys ++ [x])) = x :: insertDesc key y (sortDesc key ys)
    rw [ih hrest]
    show (if key x ≤ key y then y :: x :: sortDesc key ys
          else x :: insertDesc key y (sortDesc key ys)) =
      x :: insertDesc key y (sortDesc key ys)
    rw [if_neg (by omega)]

lemma take_all_of_length_le {α : Type} (l : List α) (n : Nat)
    (h : l.length ≤ n) : l.take n = l :=
  List.take_of_length_le h

/-- The projection `get_ioc_history` applies to each selected row (with the
`sources` column already decoded). -/
def historyProj (r : DBRow) : HistoryEntry :=
  { ioc := r.ioc, ioc_type := r.ioc_type, score := r.score,
    risk_level := r.risk_level,
    sources := (jsonDecodeStrList r.sources).getD [],
    created_at := r.created_at }

lemma historyRows_eq (rows : List DBRow)
    (h : ∀ r ∈ rows, (jsonDecodeStrList r.sources).isSome) :
    historyRows rows = .ok (rows.map historyProj) := by
  induction rows with
  | nil => rfl
  | cons r rest ih =>
    have hr := h r (by simp)
    obtain ⟨ss, hss⟩ := Option.isSome_iff_exists.1 hr
    unfold historyRows
    rw [hss, ih (fun q hq => h q (by simp [hq]))]
    simp [historyProj, hss]

lemma mem_selectDesc (db : List DBRow) (ioc : String) (r : DBRow)
    (h : r ∈ selectDesc db ioc) : r ∈ db ∧ r.ioc = ioc := by
  unfold selectDesc at h
  rw [mem_sortDesc] at h
  unfold rowsFor at h
  rw [List.mem_filter] at h
  exact ⟨h.1, by simpa using h.2⟩

lemma length_selectDesc (db : List DBRow) (ioc : String) :
    (selectDesc db ioc).length = (rowsFor db ioc).length := by
  unfold selectDesc
  exact length_sortDesc _ _

lemma selectDesc_sorted (db : List DBRow) (ioc : String) :
    DescSorted (fun r => r.created_at) (selectDesc db ioc) :=
  sortDesc_sorted _ _

/-!
Concrete example inputs, mirroring the normalized shapes the provider
adapters return (`src/app/core/providers.py`): `vt_lookup` yields
`{"detections": n, "total": 0, "url": ...}`, `securitytrails_lookup_domain`
yields `{"resolutions": [...]}`, `hunter_lookup_domain` yields
`{"emails": n}` (and in particular never a `registrar` field).
-/

def exVt : PyDict :=
  [("detections", .vint 6), ("total", .vint 0),
   ("url", .vstr "https://www.virustotal.com/gui/domain/evil.example")]

def exSt : PyDict :=
  [("resolutions", .vlist [.vstr "198.51.100.7", .vstr "203.0.113.9"])]

def exWh : PyDict := [("emails", .vint 3)]

/-- C1: for every input to the scoring engine, a returned score lies in
`[0, 100]` and the risk level is exactly one of the four tiers, assigned by
the thresholds `s ≥ 70 → critical`, `50 ≤ s < 70 → high`,
`25 ≤ s < 50 → medium`, `s < 25 → low`, which partition `[0, 100]` with no
gaps or overlaps. -/
theorem score_range_and_risk_tiers (vt st wh : Option PyDict)
    (r : Int × String × List String) (h : score_ioc vt st wh = .ok r) :
    (0 ≤ r.1 ∧ r.1 ≤ 100) ∧
    r.2.1 = riskLevelOf r.1 ∧
    (r.2.1 = "low" ∨ r.2.1 = "medium" ∨ r.2.1 = "high" ∨ r.2.1 = "critical") ∧
    (∀ s : Int, 0 ≤ s → s ≤ 100 →
      ((riskLevelOf s = "critical" ↔ 70 ≤ s ∧ s ≤ 100) ∧
       (riskLevelOf s = "high" ↔ 50 ≤ s ∧ s < 70) ∧
       (riskLevelOf s = "medium" ↔ 25 ≤ s ∧ s < 50) ∧
       (riskLevelOf s = "low" ↔ 0 ≤ s ∧ s < 25))) := by
  obtain ⟨v, hv⟩ := vtPoints_ok_of_score_ioc_ok vt st wh r h
  rw [score_ioc_ok vt st wh v hv] at h
  injection h with h2
  subst h2
  refine ⟨clampScore_range _, rfl, riskLevelOf_mem _, ?_⟩
  intro s hs1 hs2
  have ht := riskLevelOf_tiers s
  refine ⟨?_, ht.2.1, ht.2.2.1, ?_⟩
  · rw [ht.1]; omega
  · rw [ht.2.2.2]; omega

/-- Witness for C1 at a concrete enrichment input. -/
theorem score_range_and_risk_tiers_witness :
    score_ioc (some exVt) (some exSt) (some exWh) =
      .ok (40, "medium", ["virustotal", "securitytrails", "whois"]) ∧
    ((0 : Int) ≤ 40 ∧ (40 : Int) ≤ 100) :=
  ⟨rfl, (score_range_and_risk_tiers (some exVt) (some exSt) (some exWh) _ rfl).1⟩

/-- C3: the score is computed additively with fixed weights — a present,
successful (hence non-empty) reputation dict contributes its source name
regardless of detection count and adds `min(detections * 5, 50)`; a present
DNS-history dict with a truthy (non-empty) `resolutions` value adds 10; a
present WHOIS-style dict with a truthy `registrar` value adds 5; and the
final score is the sum clamped to `[0, 100]`. -/
theorem scoring_additive_weights (vt st wh : Option PyDict) (v : Int)
    (hv : vtPoints vt = .ok v) :
    score_ioc vt st wh =
      .ok (clampScore (v + stPoints st + whoisPoints wh),
           riskLevelOf (clampScore (v + stPoints st + whoisPoints wh)),
           vtSource vt ++ stSource st ++ whoisSource wh) ∧
    (∀ d n, vt = some d → d ≠ [] → pyGet d "detections" (.vint 0) = .vint n →
      vtPoints vt = .ok (min (n * 5) 50) ∧ vtSource vt = ["virustotal"]) ∧
    (∀ d, st = some d → d ≠ [] →
      pyTruthy (pyGet d "resolutions" .vnone) = true →
      stPoints st = 10 ∧ stSource st = ["securitytrails"]) ∧
    (∀ d, wh = some d → d ≠ [] →
      pyTruthy (pyGet d "registrar" .vnone) = true →
      whoisPoints wh = 5 ∧ whoisSource wh = ["whois"]) := by
  refine ⟨score_ioc_ok vt st wh v hv, ?_, ?_, ?_⟩
  · intro d n hd hne hget
    subst hd
    have htr : pyTruthyOpt (some d) = true := by
      cases d with
      | nil => exact absurd rfl hne
      | cons p ps => rfl
    have hred : optGet (some d) "detections" (.vint 0) =
        pyGet d "detections" (.vint 0) := rfl
    refine ⟨?_, by simp [vtSource, htr]⟩
    unfold vtPoints
    rw [htr, if_pos rfl, hred, hget]
    by_cases hn : n = 0
    · subst hn
      rfl
    · have hpt : pyTruthy (.vint n) = true := by simp [pyTruthy, hn]
      show (if pyTruthy (.vint n) = true then Except.ok (min (n * 5) 50)
            else Except.ok 0) = Except.ok (min (n * 5) 50)
      rw [hpt, if_pos rfl]
  · intro d hd hne htrv
    subst hd
    have htr : pyTruthyOpt (some d) = true := by
      cases d with
      | nil => exact absurd rfl hne
      | cons p ps => rfl
    unfold stPoints stSource optGet
    rw [htr, htrv]
    simp
  · intro d hd hne htrv
    subst hd
    have htr : pyTruthyOpt (some d) = true := by
      cases d with
      | nil => exact absurd rfl hne
      | cons p ps => rfl
    unfold whoisPoints whoisSource optGet
    rw [htr, htrv]
    simp

/-- Witness for C3 at a concrete enrichment input. -/
theorem scoring_additive_weights_witness :
    score_ioc (some exVt) (some exSt) none =
      .ok (clampScore (30 + stPoints (some exSt) + whoisPoints none),
           riskLevelOf (clampScore (30 + stPoints (some exSt) + whoisPoints none)),
           vtSource (some exVt) ++ stSource (some exSt) ++ whoisSource none) ∧
    score_ioc (some exVt) (some exSt) none =
      .ok (40, "medium", ["virustotal", "securitytrails"]) :=
  ⟨(scoring_additive_weights (some exVt) (some exSt) none 30 rfl).1,
   ((scoring_additive_weights (some exVt) (some exSt) none 30 rfl).1).trans rfl⟩

/-- C4, counterexample: on the spec's example input — reputation dict with
6 detections, DNS-history dict with 2 resolutions, and a present
WHOIS-style result with no registrar field (the WHOIS-style adapter
returns `{"emails": n}`) — the engine does return score 40 and risk
`medium`, but the sources list has three entries and contains the
WHOIS-style provider, contradicting the claimed two-element sources list
that omits it. -/
theorem example_scoring_counterexample :
    score_ioc (some exVt) (some exSt) (some exWh) =
      .ok (40, "medium", ["virustotal", "securitytrails", "whois"]) ∧
    "whois" ∈ (["virustotal", "securitytrails", "whois"] : List String) ∧
    (["virustotal", "securitytrails", "whois"] : List String).length = 3 :=
  ⟨rfl, by simp, rfl⟩

/-- C4, amended: on that input the engine returns score
`min(6*5, 50) + 10 + 0 = 40`, risk level `medium`, and sources listing all
three providers, because a present non-empty provider dict contributes its
source name regardless of the registrar field. -/
theorem example_scoring_amended :
    score_ioc (some exVt) (some exSt) (some exWh) =
      .ok (40, "medium", ["virustotal", "securitytrails", "whois"]) := rfl

/-- C10: the additive sum is at most `50 + 10 + 5 = 65 < 70`, so the
scoring engine never returns the `critical` tier. -/
theorem critical_tier_unreachable (vt st wh : Option PyDict)
    (r : Int × String × List String) (h : score_ioc vt st wh = .ok r) :
    r.1 ≤ 65 ∧ r.2.1 ≠ "critical" := by
  obtain ⟨v, hv⟩ := vtPoints_ok_of_score_ioc_ok vt st wh r h
  rw [score_ioc_ok vt st wh v hv] at h
  injection h with h2
  subst h2
  have h1 := vtPoints_le vt v hv
  have h2 := stPoints_le st
  have h3 := whoisPoints_le wh
  have hcl : clampScore (v + stPoints st + whoisPoints wh) ≤ 65 :=
    clampScore_le_of_le _ 65 (by norm_num) (by omega)
  refine ⟨hcl, ?_⟩
  intro hcrit
  have h70 := (riskLevelOf_tiers (clampScore (v + stPoints st + whoisPoints wh))).1.1 hcrit
  omega

/-- Witness for C10 at a concrete enrichment input. -/
theorem critical_tier_unreachable_witness :
    score_ioc (some exVt) (some exSt) (some exWh) =
      .ok (40, "medium", ["virustotal", "securitytrails", "whois"]) ∧
    ((40 : Int) ≤ 65 ∧ "medium" ≠ "critical") :=
  ⟨rfl, critical_tier_unreachable (some exVt) (some exSt) (some exWh) _ rfl⟩

/-- C7: for a hash-typed IOC the orchestrator short-circuits — whatever the
batch would have done, no provider task is created (call count 0) and all
three per-provider results are absent. -/
theorem hash_type_no_provider_calls (outcome : BatchOutcome) :
    enrich_ioc_parallel "hash" outcome = ((none, none, none), 0) := rfl

/-- C5: when the shared batch deadline elapses, the orchestrator returns an
empty enrichment result regardless of the per-task states at that moment
(in particular no partial results for tasks that had finished), and the
scoring engine then still succeeds with score 0, risk `low` and no
sources. -/
theorem timeout_empty_enrichment_scores_zero
    (s0 s1 s2 : TaskStatus) :
    enrich_ioc_parallel "domain" (.deadlineElapsed s0 s1 s2) =
      ((none, none, none), 3) ∧
    enrich_ioc_parallel "ip" (.deadlineElapsed s0 s1 s2) =
      ((none, none, none), 3) ∧
    score_ioc none none none = .ok (0, "low", []) :=
  ⟨rfl, rfl, rfl⟩

/-- C6: when exactly one of the three providers fails (raises, or returns a
non-dict) while the other two succeed with (non-empty) dicts, the failed
provider is dropped from the enrichment triple, the scoring engine still
succeeds, the two surviving providers appear in sources in registration
order, and the failed one contributes neither points nor a source name.
One conjunct per choice of failing provider; `fail` ranges over both
failure modes via `taskResult fail = none`. -/
theorem single_provider_failure_tolerated (t : String)
    (ht : t = "domain" ∨ t = "ip") (fail : TaskOutcome)
    (hfail : taskResult fail = none) (d1 d2 : PyDict) (v : Int)
    (h1 : d1 ≠ []) (h2 : d2 ≠ []) (hv : vtPoints (some d1) = .ok v) :
    (enrich_ioc_parallel t (.completed fail (.retDict d1) (.retDict d2)) =
        ((none, some d1, some d2), 3) ∧
      score_ioc none (some d1) (some d2) =
        .ok (clampScore (0 + stPoints (some d1) + whoisPoints (some d2)),
             riskLevelOf (clampScore (0 + stPoints (some d1) + whoisPoints (some d2))),
             ["securitytrails", "whois"])) ∧
    (enrich_ioc_parallel t (.completed (.retDict d1) fail (.retDict d2)) =
        ((some d1, none, some d2), 3) ∧
      score_ioc (some d1) none (some d2) =
        .ok (clampScore (v + 0 + whoisPoints (some d2)),
             riskLevelOf (clampScore (v + 0 + whoisPoints (some d2))),
             ["virustotal", "whois"])) ∧
    (enrich_ioc_parallel t (.completed (.retDict d1) (.retDict d2) fail) =
        ((some d1, some d2, none), 3) ∧
      score_ioc (some d1) (some d2) none =
        .ok (clampScore (v + stPoints (some d2) + 0),
             riskLevelOf (clampScore (v + stPoints (some d2) + 0)),
             ["virustotal", "securitytrails"])) := by
  have hmem : t ∈ (["domain", "ip"] : List String) := by
    rcases ht with h | h <;> simp [h]
  have henr : ∀ r0 r1 r2, enrich_ioc_parallel t (.completed r0 r1 r2) =
      ((taskResult r0, taskResult r1, taskResult r2), 3) := by
    intro r0 r1 r2
    unfold enrich_ioc_parallel
    rw [if_neg (fun hc => hc hmem)]
  have hne1 : (!d1.isEmpty) = true := by
    cases d1 with
    | nil => exact absurd rfl h1
    | cons p ps => rfl
  have hne2 : (!d2.isEmpty) = true := by
    cases d2 with
    | nil => exact absurd rfl h2
    | cons p ps => rfl
  have hv0 : vtPoints none = .ok 0 := rfl
  refine ⟨⟨?_, ?_⟩, ⟨?_, ?_⟩, ⟨?_, ?_⟩⟩
  · rw [henr, hfail]; rfl
  · rw [score_ioc_ok none (some d1) (some d2) 0 hv0]
    simp [vtSource, stSource, whoisSource, pyTruthyOpt, hne1, hne2]
  · rw [henr, hfail]; rfl
  · rw [score_ioc_ok (some d1) none (some d2) v hv]
    simp [vtSource, stSource, whoisSource, stPoints, pyTruthyOpt, hne1, hne2]
  · rw [henr, hfail]; rfl
  · rw [score_ioc_ok (some d1) (some d2) none v hv]
    simp [vtSource, stSource, whoisSource, whoisPoints, pyTruthyOpt, hne1, hne2]

/-- Witness for C6: SecurityTrails raises while VirusTotal and the
WHOIS-style provider return dicts. -/
theorem single_provider_failure_tolerated_witness :
    enrich_ioc_parallel "ip"
        (.completed (.retDict exVt) .raised (.retDict exWh)) =
      ((some exVt, none, some exWh), 3) ∧
    score_ioc (some exVt) none (some exWh) =
      .ok (30, "medium", ["virustotal", "whois"]) := by
  have h := single_provider_failure_tolerated "ip" (Or.inr rfl) .raised rfl
    exVt exWh 30 (by simp [exVt]) (by simp [exWh]) rfl
  exact ⟨h.2.1.1, h.2.1.2.trans rfl⟩

/-!
A concrete two-assessment store for the timeline/history claims: the same
IOC assessed at time 1 (score 40, medium) and at time 2 (score 55, high).
-/

def exRow1 : DBRow :=
  { ioc := "evil.example", ioc_type := "domain", score := 40,
    risk_level := "medium", sources := jsonEncodeStrList ["virustotal"],
    vt := exVt, st := [], whois := [], created_at := 1,
    first_seen_global := 1, last_updated := 1, burned_infra := 0,
    activity_phase := "unknown" }

def exRow2 : DBRow :=
  { ioc := "evil.example", ioc_type := "domain", score := 55,
    risk_level := "high", sources := jsonEncodeStrList ["virustotal"],
    vt := exVt, st := [], whois := [], created_at := 2,
    first_seen_global := 2, last_updated := 2, burned_infra := 0,
    activity_phase := "unknown" }

def exDB : List DBRow := [exRow1, exRow2]

/-- C2, counterexample: with two stored assessments at times 1 and 2,
`get_ioc_timeline` returns the newest first (`ORDER BY created_at DESC`),
not the claimed chronological oldest-first order. -/
theorem timeline_order_counterexample :
    get_ioc_timeline exDB "evil.example" =
      [{ timestamp := 2, score := 55, risk_level := "high",
         phase := "unknown", burned := false },
       { timestamp := 1, score := 40, risk_level := "medium",
         phase := "unknown", burned := false }] ∧
    get_ioc_timeline exDB "evil.example" ≠
      [{ timestamp := 1, score := 40, risk_level := "medium",
         phase := "unknown", burned := false },
       { timestamp := 2, score := 55, risk_level := "high",
         phase := "unknown", burned := false }] :=
  ⟨rfl, by decide⟩

/-- C2, amended: `get_ioc_history` succeeds (on well-formed rows) with the
most-recent-first projection of at most 50 rows, `get_ioc_timeline` is in
the same most-recent-first order (at most 100 rows) rather than the
opposite, and whenever the IOC has at most 50 stored assessments the two
views project exactly the same underlying rows. -/
theorem history_timeline_order (db : List DBRow) (ioc : String)
    (hwf : ∀ r ∈ db, (jsonDecodeStrList r.sources).isSome) :
    get_ioc_history db ioc =
      .ok (((selectDesc db ioc).take 50).map historyProj) ∧
    DescSorted (fun e => e.created_at)
      (((selectDesc db ioc).take 50).map historyProj) ∧
    DescSorted (fun p => p.timestamp) (get_ioc_timeline db ioc) ∧
    ((rowsFor db ioc).length ≤ 50 →
      (((selectDesc db ioc).take 50).map historyProj).map
          (fun e => (e.created_at, e.score, e.risk_level)) =
        (get_ioc_timeline db ioc).map
          (fun p => (p.timestamp, p.score, p.risk_level))) := by
  have hsel : ∀ n, ∀ r ∈ (selectDesc db ioc).take n,
      (jsonDecodeStrList r.sources).isSome := by
    intro n r hr
    exact hwf r ((mem_selectDesc db ioc r (List.mem_of_mem_take hr)).1)
  have hsorted50 : DescSorted (fun r : DBRow => r.created_at)
      ((selectDesc db ioc).take 50) :=
    List.Chain'.take (selectDesc_sorted db ioc) 50
  have hsorted100 : DescSorted (fun r : DBRow => r.created_at)
      ((selectDesc db ioc).take 100) :=
    List.Chain'.take (selectDesc_sorted db ioc) 100
  refine ⟨?_, ?_, ?_, ?_⟩
  · unfold get_ioc_history
    exact historyRows_eq _ (hsel 50)
  · unfold DescSorted
    rw [List.chain'_map]
    exact hsorted50
  · unfold get_ioc_timeline DescSorted
    rw [List.chain'_map]
    exact hsorted100
  · intro hlen
    have hlen2 : (selectDesc db ioc).length ≤ 50 := by
      rw [length_selectDesc]; omega
    have h50 : (selectDesc db ioc).take 50 = selectDesc db ioc :=
      take_all_of_length_le _ _ hlen2
    have h100 : (selectDesc db ioc).take 100 = selectDesc db ioc :=
      take_all_of_length_le _ _ (by omega)
    unfold get_ioc_timeline
    rw [h50, h100, List.map_map, List.map_map]
    rfl

/-- Witness for C2's amended order claim on the concrete two-row store. -/
theorem history_timeline_order_witness :
    get_ioc_history exDB "evil.example" =
      .ok [{ ioc := "evil.example", ioc_type := "domain", score := 55,
             risk_level := "high", sources := ["virustotal"], created_at := 2 },
           { ioc := "evil.example", ioc_type := "domain", score := 40,
             risk_level := "medium", sources := ["virustotal"], created_at := 1 }] ∧
    (rowsFor exDB "evil.example").length ≤ 50 := by
  have h := history_timeline_order exDB "evil.example" (by
    intro r hr
    simp only [exDB, List.mem_cons, List.not_mem_nil, or_false] at hr
    rcases hr with rfl | rfl <;> rfl)
  exact ⟨h.1.trans rfl, by decide⟩

/-- C8: an assessment appended via `save_query` into a store where it has
the strictly largest `created_at` for its IOC is read back by
`get_ioc_summary` with exactly the written score, risk level and sources
(the serialized sources list round-trips to an equal list). -/
theorem append_latest_roundtrip (db : List DBRow) (ioc ioc_type : String)
    (score : Int) (risk_level : String) (sources : List String)
    (vt st whois : Option PyDict) (now : Nat)
    (hscore : 0 ≤ score ∧ score ≤ 100)
    (hrisk : risk_level ∈ allowedRiskLevels)
    (hnew : ∀ r ∈ db, r.ioc = ioc → r.created_at < now) :
    save_query db ioc ioc_type score risk_level sources vt st whois now =
      .ok (db ++ [savedRow ioc ioc_type score risk_level sources vt st whois now]) ∧
    get_ioc_summary
        (db ++ [savedRow ioc ioc_type score risk_level sources vt st whois now])
        ioc =
      .ok (some { ioc := ioc, ioc_type := ioc_type, score := score,
                  risk_level := risk_level, sources := sources,
                  vt := vt.getD [], st := st.getD [], whois := whois.getD [],
                  created_at := now }) := by
  constructor
  · unfold save_query
    rw [if_pos ⟨hscore.1, hscore.2, hrisk⟩]
  · have hfil : rowsFor
        (db ++ [savedRow ioc ioc_type score risk_level sources vt st whois now])
        ioc =
        rowsFor db ioc ++
          [savedRow ioc ioc_type score risk_level sources vt st whois now] := by
      unfold rowsFor
      rw [List.filter_append]
      simp [savedRow]
    have hkeys : ∀ y ∈ rowsFor db ioc, y.created_at < now := by
      intro y hy
      unfold rowsFor at hy
      rw [List.mem_filter] at hy
      exact hnew y hy.1 (by simpa using hy.2)
    have hsel : selectDesc
        (db ++ [savedRow ioc ioc_type score risk_level sources vt st whois now])
        ioc =
        savedRow ioc ioc_type score risk_level sources vt st whois now ::
          sortDesc (fun r => r.created_at) (rowsFor db ioc) := by
      unfold selectDesc
      rw [hfil]
      exact sortDesc_append_newest _ _ _ hkeys
    unfold get_ioc_summary
    rw [hsel]
    simp only [List.head?_cons, Option.elim_some, savedRow]
    rw [jsonDecodeStrList_encode]
    simp only [Option.elim_some]

/-- Witness for C8: write one assessment into the empty store and read it
back. -/
theorem append_latest_roundtrip_witness :
    save_query [] "evil.example" "domain" 40 "medium" ["virustotal"]
        (some exVt) none none 7 =
      .ok ([] ++ [savedRow "evil.example" "domain" 40 "medium" ["virustotal"]
        (some exVt) none none 7]) ∧
    get_ioc_summary
        ([] ++ [savedRow "evil.example" "domain" 40 "medium" ["virustotal"]
          (some exVt) none none 7]) "evil.example" =
      .ok (some { ioc := "evil.example", ioc_type := "domain", score := 40,
                  risk_level := "medium", sources := ["virustotal"],
                  vt := exVt, st := [], whois := [], created_at := 7 }) :=
  append_latest_roundtrip [] "evil.example" "domain" 40 "medium" ["virustotal"]
    (some exVt) none none 7 (by norm_num) (by simp [allowedRiskLevels])
    (fun r hr => absurd hr (List.not_mem_nil r))

/-- The schema invariant of `init_db`'s CHECK constraints, as a predicate
on rows. -/
def rowInv (r : DBRow) : Prop :=
  0 ≤ r.score ∧ r.score ≤ 100 ∧ r.risk_level ∈ allowedRiskLevels

/-- C9: the store enforces at write time that every persisted row has a
score in `[0, 100]` and a known risk level — an insert violating either
CHECK constraint is rejected and nothing is appended; a successful insert
implies the constraints held, preserving the invariant of the whole store;
and consequently everything readable back (here through the timeline view)
satisfies both constraints. -/
theorem store_write_time_constraints (db : List DBRow) (ioc ioc_type : String)
    (score : Int) (risk_level : String) (sources : List String)
    (vt st whois : Option PyDict) (now : Nat) :
    (¬ (0 ≤ score ∧ score ≤ 100 ∧ risk_level ∈ allowedRiskLevels) →
      save_query db ioc ioc_type score risk_level sources vt st whois now =
        .error "CHECK constraint failed") ∧
    (∀ db', save_query db ioc ioc_type score risk_level sources vt st whois now =
        .ok db' →
      (0 ≤ score ∧ score ≤ 100 ∧ risk_level ∈ allowedRiskLevels) ∧
      ((∀ r ∈ db, rowInv r) → ∀ r ∈ db', rowInv r)) ∧
    ((∀ r ∈ db, rowInv r) → ∀ q ∈ get_ioc_timeline db ioc,
      0 ≤ q.score ∧ q.score ≤ 100 ∧ q.risk_level ∈ allowedRiskLevels) := by
  refine ⟨?_, ?_, ?_⟩
  · intro h
    unfold save_query
    rw [if_neg h]
  · intro db' hdb'
    unfold save_query at hdb'
    by_cases hc : 0 ≤ score ∧ score ≤ 100 ∧ risk_level ∈ allowedRiskLevels
    · rw [if_pos hc] at hdb'
      injection hdb' with h2
      subst h2
      refine ⟨hc, ?_⟩
      intro hin r hr
      rw [List.mem_append] at hr
      rcases hr with hdb | hnew
      · exact hin r hdb
      · rw [List.mem_singleton] at hnew
        subst hnew
        exact ⟨hc.1, hc.2.1, hc.2.2⟩
    · rw [if_neg hc] at hdb'
      cases hdb'
  · intro hin q hq
    unfold get_ioc_timeline at hq
    rw [List.mem_map] at hq
    obtain ⟨r, hr, rfl⟩ := hq
    have hrdb := (mem_selectDesc db ioc r (List.mem_of_mem_take hr)).1
    exact hin r hrdb

/-- Witness for C9: an out-of-range score and an unknown risk level are
both rejected; a valid write's constraints hold. -/
theorem store_write_time_constraints_witness :
    save_query [] "evil.example" "domain" 150 "medium" [] none none none 0 =
      .error "CHECK constraint failed" ∧
    save_query [] "evil.example" "domain" 40 "bogus" [] none none none 0 =
      .error "CHECK constraint failed" ∧
    (0 ≤ (40 : Int) ∧ (40 : Int) ≤ 100 ∧ "medium" ∈ allowedRiskLevels) := by
  refine ⟨?_, ?_, ?_⟩
  · exact (store_write_time_constraints [] "evil.example" "domain" 150 "medium"
      [] none none none 0).1 (by decide)
  · exact (store_write_time_constraints [] "evil.example" "domain" 40 "bogus"
      [] none none none 0).1 (by decide)
  · exact ((store_write_time_constraints [] "evil.example" "domain" 40 "medium"
      [] none none none 0).2.1 _ rfl).1
